import Mathlib

/-!
Verification of the OpenAPI documentation/playground core of the
Delphi-Terminal/delphi-website repository.

The development shallowly embeds the TypeScript source:

* the OpenAPI structural model and the helpers `extractEndpoints`,
  `groupEndpointsByTag`, `resolveRef`, `resolveParameter`,
  `resolveParameters` (file `src/unnamed/part_000`, the shared
  `types/openapi` module);
* the example synthesizer `generateExampleResponse` and the inline
  schema `$ref` resolution used by the docs view
  (`src/docs-ui/src/components/EndpointView.tsx`);
* the request builder of the playground: `buildUrl`, the request
  assembled by `executeRequest`, and the shell-command renderer
  `generateCurl` (second component of
  `src/docs-ui/src/components/MethodBadge.tsx`).

JavaScript `Record`s and `Map`s are embedded as association lists in
insertion order, JS strings as Lean `String`, JSON values as the `Json`
type below, and the unbounded recursions of the source (schema `$ref`
chains) take an explicit fuel argument.  JS truthiness tests of the
source (`if (x)` on strings / JSON values) are translated exactly
(empty string, `0`, `false`, `null` are falsy).  `Array.prototype.sort`
is embedded as a stable insertion sort, which matches the ECMAScript
specification of `sort` for a consistent comparator.
-/

/-! ## JSON values

JSON values appearing in `example` / `default` fields of the spec.
`JsonList` / `JsonFields` are inlined lists so that all functions are
plain mutual structural recursions (arrays keep order, object fields
keep insertion order, as in JS). -/

mutual
inductive Json where
  | null : Json
  | bool (b : Bool) : Json
  | num (n : Int) : Json
  | str (s : String) : Json
  | arr (xs : JsonList) : Json
  | obj (fs : JsonFields) : Json
inductive JsonList where
  | nil : JsonList
  | cons (hd : Json) (tl : JsonList) : JsonList
inductive JsonFields where
  | nil : JsonFields
  | cons (k : String) (v : Json) (tl : JsonFields) : JsonFields
end

/-- Convert a Lean list of JSON values to a `JsonList`. -/
def jlist : List Json → JsonList
  | [] => JsonList.nil
  | x :: xs => JsonList.cons x (jlist xs)

/-- Convert a Lean association list to JSON object fields. -/
def jfields : List (String × Json) → JsonFields
  | [] => JsonFields.nil
  | (k, v) :: xs => JsonFields.cons k v (jfields xs)

/-- JS truthiness of a JSON value: `null`, `false`, `0` and `""` are
falsy, everything else (including `[]` and an empty object) is truthy. -/
def jsTruthy : Json → Bool
  | Json.null => false
  | Json.bool b => b
  | Json.num n => n != 0
  | Json.str s => s != ""
  | Json.arr _ => true
  | Json.obj _ => true

/-- Truthiness of a possibly-absent JSON value (`undefined` is falsy). -/
def jsTruthyOpt : Option Json → Bool
  | none => false
  | some e => jsTruthy e

/-! ## String utilities of the JS runtime -/

/-- Lowercase hexadecimal digit (JSON `\u00..` escapes use lowercase). -/
def hexDigitL (n : Nat) : Char :=
  if n < 10 then Char.ofNat (48 + n) else Char.ofNat (87 + n)

/-- Uppercase hexadecimal digit (`encodeURIComponent` uses uppercase). -/
def hexDigitU (n : Nat) : Char :=
  if n < 10 then Char.ofNat (48 + n) else Char.ofNat (55 + n)

/-- UTF-8 bytes of a character, as used by `encodeURIComponent`. -/
def utf8Bytes (c : Char) : List Nat :=
  let n := c.toNat
  if n < 128 then [n]
  else if n < 2048 then [192 + n / 64, 128 + n % 64]
  else if n < 65536 then [224 + n / 4096, 128 + (n / 64) % 64, 128 + n % 64]
  else [240 + n / 262144, 128 + (n / 4096) % 64, 128 + (n / 64) % 64, 128 + n % 64]

/-- Percent-encoding of one byte. -/
def percentByte (b : Nat) : String :=
  String.mk ['%', hexDigitU (b / 16), hexDigitU (b % 16)]

/-- Characters `encodeURIComponent` leaves unescaped. -/
def isUnreservedURIChar (c : Char) : Bool :=
  c.isAlpha || c.isDigit || c = '-' || c = '_' || c = '.' || c = '!' ||
    c = '~' || c = '*' || c = Char.ofNat 39 || c = '(' || c = ')'

/-- JS `encodeURIComponent`. -/
def encodeURIComponent (s : String) : String :=
  String.join (s.data.map (fun c =>
    if isUnreservedURIChar c then String.mk [c]
    else String.join ((utf8Bytes c).map percentByte)))

/-- Escaping of one character inside a JSON string literal, as
performed by `JSON.stringify`. -/
def jsonEscapeChar (c : Char) : String :=
  if c = Char.ofNat 34 then "\\\""
  else if c = '\\' then "\\\\"
  else if c = Char.ofNat 10 then "\\n"
  else if c = Char.ofNat 13 then "\\r"
  else if c = Char.ofNat 9 then "\\t"
  else if c = Char.ofNat 8 then "\\b"
  else if c = Char.ofNat 12 then "\\f"
  else if c.toNat < 32 then
    "\\u00" ++ String.mk [hexDigitL (c.toNat / 16), hexDigitL (c.toNat % 16)]
  else String.mk [c]

/-- A JSON string literal with quotes, as produced by `JSON.stringify`. -/
def jsonQuote (s : String) : String :=
  "\"" ++ String.join (s.data.map jsonEscapeChar) ++ "\""

/-- A run of `n` spaces. -/
def spacesStr (n : Nat) : String := String.mk (List.replicate n ' ')

/-! `JSON.stringify(value, null, 2)`: two-space pretty printing.  The
`Nat` argument is the indentation of the current value's closing
bracket; the top-level call uses `0`. -/

mutual
/-- `JSON.stringify(v, null, 2)` at indentation `ind`. -/
def jsonStringify : Json → Nat → String
  | Json.null, _ => "null"
  | Json.bool b, _ => if b then "true" else "false"
  | Json.num n, _ => toString n
  | Json.str s, _ => jsonQuote s
  | Json.arr JsonList.nil, _ => "[]"
  | Json.arr xs, ind =>
      "[\n" ++ String.intercalate ",\n" (stringifyItems xs (ind + 2)) ++
        "\n" ++ spacesStr ind ++ "]"
  | Json.obj JsonFields.nil, _ => "\x7b\x7d"
  | Json.obj fs, ind =>
      "\x7b\n" ++ String.intercalate ",\n" (stringifyFields fs (ind + 2)) ++
        "\n" ++ spacesStr ind ++ "\x7d"
/-- Rendered array items, each on its own indented line. -/
def stringifyItems : JsonList → Nat → List String
  | JsonList.nil, _ => []
  | JsonList.cons x tl, ind =>
      (spacesStr ind ++ jsonStringify x ind) :: stringifyItems tl ind
/-- Rendered object entries, each on its own indented line. -/
def stringifyFields : JsonFields → Nat → List String
  | JsonFields.nil, _ => []
  | JsonFields.cons k v tl, ind =>
      (spacesStr ind ++ jsonQuote k ++ ": " ++ jsonStringify v ind) ::
        stringifyFields tl ind
end

/-- ECMA-262 `GetSubstitution` for a *string* search (no capture
groups): expand the replacement text, treating `$$` as a literal `$`,
`$&` as the matched text, a `$` followed by a backquote (code 96) as
the part of the original string before the match, and `$` followed by
an apostrophe (code 39) as the part after the match.  Every other use
of `$` — including `$1`..`$9`, which have no capture to refer to, and
`$<` with no named captures — passes through as literal text.  `36`,
`38` are the codes of the dollar and ampersand characters. -/
def getSubstitution (before matched after : List Char) :
    List Char → List Char
  | [] => []
  | c :: rest =>
      if c = Char.ofNat 36 then
        match rest with
        | [] => [c]
        | d :: rest2 =>
            if d = Char.ofNat 36 then
              Char.ofNat 36 :: getSubstitution before matched after rest2
            else if d = Char.ofNat 38 then
              matched ++ getSubstitution before matched after rest2
            else if d = Char.ofNat 96 then
              before ++ getSubstitution before matched after rest2
            else if d = Char.ofNat 39 then
              after ++ getSubstitution before matched after rest2
            else c :: d :: getSubstitution before matched after rest2
      else c :: getSubstitution before matched after rest

/-- JS `String.prototype.replace` with a plain-string pattern, on
character lists: find the first occurrence of `pat` and splice in the
`GetSubstitution` expansion of `rep` (the whole string is returned
unchanged when `pat` does not occur; an empty `pat` matches at
position 0, as in JS).  The `before` accumulator is the already
consumed prefix — the value of a backquoted `$` substitution. -/
def replaceFirstCharsAux (pat rep : List Char) :
    List Char → List Char → List Char
  | before, [] => if pat.isEmpty then getSubstitution before pat [] rep else []
  | before, c :: cs =>
      if pat.isPrefixOf (c :: cs) then
        getSubstitution before pat ((c :: cs).drop pat.length) rep ++
          (c :: cs).drop pat.length
      else c :: replaceFirstCharsAux pat rep (before ++ [c]) cs

/-- JS `s.replace(pat, rep)` on character lists (first occurrence
only, `GetSubstitution` expansion of the replacement). -/
def replaceFirstChars (s pat rep : List Char) : List Char :=
  replaceFirstCharsAux pat rep [] s

/-- JS `s.replace(pat, rep)` on Lean strings. -/
def replaceFirstStr (s pat rep : String) : String :=
  String.mk (replaceFirstChars s.data pat.data rep.data)

/-- The literal path placeholder `{name}`. -/
def placeholder (name : String) : String := "\x7b" ++ name ++ "\x7d"

/-! ## OpenAPI 3.0 structural model (`src/unnamed/part_000`, interfaces)

Optional TS fields become `Option`; `Record<string, T>` becomes an
association list in document key order; `$ref` is the `ref` field
(`example` and `in` are renamed `exampleVal` / `inLoc`, `$ref` is
`ref`, because Lean reserves those identifiers). -/

/-- HTTP methods carried by a `PathItem`. -/
inductive Method where
  | get : Method
  | post : Method
  | put : Method
  | delete : Method
  | patch : Method
deriving DecidableEq

/-- JS `method.toUpperCase()`. -/
def Method.upper : Method → String
  | Method.get => "GET"
  | Method.post => "POST"
  | Method.put => "PUT"
  | Method.delete => "DELETE"
  | Method.patch => "PATCH"

/-- The fixed method order walked by `extractEndpoints`
(`const methods = ['get', 'post', 'put', 'delete', 'patch']`). -/
def methodsOrder : List Method :=
  [Method.get, Method.post, Method.put, Method.delete, Method.patch]

/-- TS interface `Schema` (recursive through `properties` and
`items`).  Field order: type, format, description, properties, items,
required, example, enum, default, $ref. -/
inductive Schema where
  | mk (type : Option String) (format : Option String)
      (description : Option String)
      (properties : Option (List (String × Schema)))
      (items : Option Schema)
      (required : Option (List String))
      (exampleVal : Option Json)
      (enumVals : Option (List Json))
      (defaultVal : Option Json)
      (ref : Option String) : Schema

def Schema.type : Schema → Option String
  | Schema.mk t _ _ _ _ _ _ _ _ _ => t

def Schema.format : Schema → Option String
  | Schema.mk _ f _ _ _ _ _ _ _ _ => f

def Schema.description : Schema → Option String
  | Schema.mk _ _ d _ _ _ _ _ _ _ => d

def Schema.properties : Schema → Option (List (String × Schema))
  | Schema.mk _ _ _ p _ _ _ _ _ _ => p

def Schema.items : Schema → Option Schema
  | Schema.mk _ _ _ _ i _ _ _ _ _ => i

def Schema.required : Schema → Option (List String)
  | Schema.mk _ _ _ _ _ r _ _ _ _ => r

def Schema.exampleVal : Schema → Option Json
  | Schema.mk _ _ _ _ _ _ e _ _ _ => e

def Schema.enumVals : Schema → Option (List Json)
  | Schema.mk _ _ _ _ _ _ _ e _ _ => e

def Schema.defaultVal : Schema → Option Json
  | Schema.mk _ _ _ _ _ _ _ _ d _ => d

def Schema.ref : Schema → Option String
  | Schema.mk _ _ _ _ _ _ _ _ _ r => r

/-- A schema with every field absent. -/
def emptySchema : Schema :=
  Schema.mk none none none none none none none none none none

/-- TS interface `SecurityScheme`. -/
structure SecurityScheme where
  type : String
  name : Option String
  inLoc : Option String
  description : Option String

/-- TS interface `MediaType`. -/
structure MediaType where
  schema : Option Schema
  exampleVal : Option Json

/-- TS interface `Response`. -/
structure Response where
  description : Option String
  content : Option (List (String × MediaType))

/-- TS interface `RequestBody`. -/
structure RequestBody where
  description : Option String
  required : Option Bool
  content : Option (List (String × MediaType))

/-- TS interface `Parameter` (also stands for the `{ $ref: string }`
alternative accepted by `resolveParameter`: a bare reference carries an
irrelevant `name`/`inLoc`). -/
structure Parameter where
  name : String
  inLoc : String
  description : Option String
  required : Option Bool
  schema : Option Schema
  exampleVal : Option Json
  ref : Option String

/-- TS interface `Operation`. -/
structure Operation where
  tags : Option (List String)
  summary : Option String
  description : Option String
  operationId : Option String
  parameters : Option (List Parameter)
  requestBody : Option RequestBody
  responses : Option (List (String × Response))
  security : Option (List (List (String × List String)))

/-- TS interface `PathItem`. -/
structure PathItem where
  get : Option Operation
  post : Option Operation
  put : Option Operation
  delete : Option Operation
  patch : Option Operation

/-- TS interface `Tag`. -/
structure Tag where
  name : String
  description : Option String

/-- One entry of `servers`. -/
structure Server where
  url : String
  description : Option String

/-- `info.contact`. -/
structure Contact where
  name : Option String
  url : Option String

/-- `info`. -/
structure Info where
  title : String
  description : Option String
  version : String
  contact : Option Contact

/-- TS `components` bag. -/
structure Components where
  schemas : Option (List (String × Schema))
  parameters : Option (List (String × Parameter))
  securitySchemes : Option (List (String × SecurityScheme))

/-- TS interface `OpenAPISpec` (root document). -/
structure OpenAPISpec where
  openapi : String
  info : Info
  servers : Option (List Server)
  tags : Option (List Tag)
  paths : List (String × PathItem)
  components : Option Components
  security : Option (List (List (String × List String)))

/-- Derived type `Endpoint`. -/
structure Endpoint where
  path : String
  method : Method
  operation : Operation

/-- Derived type `TagGroup`. -/
structure TagGroup where
  name : String
  description : Option String
  endpoints : List Endpoint

/-! ## Endpoint indexing (`src/unnamed/part_000`) -/

/-- `const HIDDEN_ENDPOINTS = ['/api/v1/test-key']`. -/
def HIDDEN_ENDPOINTS : List String := ["/api/v1/test-key"]

/-- TS `pathItem[method]`. -/
def pathItemGet (item : PathItem) : Method → Option Operation
  | Method.get => item.get
  | Method.post => item.post
  | Method.put => item.put
  | Method.delete => item.delete
  | Method.patch => item.patch

/-- Inner loop of `extractEndpoints`: walk the fixed method order and
push one `Endpoint` per present operation. -/
def methodLoop (p : String) (item : PathItem) : List Method → List Endpoint
  | [] => []
  | m :: ms =>
      (match pathItemGet item m with
        | some op => [⟨p, m, op⟩]
        | none => []) ++ methodLoop p item ms

/-- Outer loop of `extractEndpoints`: walk `spec.paths` in document key
order, skipping hidden paths (`continue`). -/
def extractLoop : List (String × PathItem) → List Endpoint
  | [] => []
  | (p, item) :: rest =>
      (if HIDDEN_ENDPOINTS.contains p then []
       else methodLoop p item methodsOrder) ++ extractLoop rest

/-- `extractEndpoints(spec)` of `src/unnamed/part_000`. -/
def extractEndpoints (spec : OpenAPISpec) : List Endpoint :=
  extractLoop spec.paths

/-! JS `Map` embedded as an association list in insertion order. -/

/-- `Map.get` (`undefined` when absent). -/
def jsMapGet {α : Type} (m : List (String × α)) (k : String) : Option α :=
  (m.find? (fun q => q.1 == k)).map (fun q => q.2)

/-- `Map.set`: overwrite in place when the key exists (keeping its
insertion position), else append. -/
def jsMapSet {α : Type} (m : List (String × α)) (k : String) (v : α) :
    List (String × α) :=
  if m.any (fun q => q.1 == k) then
    m.map (fun q => if q.1 == k then (k, v) else q)
  else m ++ [(k, v)]

/-- One step of the tag-grouping loop:
`if (!tagMap.has(tag)) tagMap.set(tag, []); tagMap.get(tag)!.push(e)`. -/
def tagMapPush (m : List (String × List Endpoint)) (t : String)
    (e : Endpoint) : List (String × List Endpoint) :=
  if m.any (fun q => q.1 == t) then
    m.map (fun q => if q.1 == t then (q.1, q.2 ++ [e]) else q)
  else m ++ [(t, [e])]

/-- `endpoint.operation.tags?.[0] || 'Other'` — note that JS `||` sends
an *empty-string* first tag to `"Other"` as well. -/
def endpointTag (e : Endpoint) : String :=
  match e.operation.tags with
  | some (t :: _) => if t = "" then "Other" else t
  | _ => "Other"

/-- The tag map after grouping all endpoints (insertion order = order
of first appearance of each tag). -/
def buildTagMap (eps : List Endpoint) : List (String × List Endpoint) :=
  eps.foldl (fun m e => tagMapPush m (endpointTag e) e) []

/-- JS `Array.prototype.indexOf` on strings (`-1` when absent). -/
def jsIndexOf (x : String) : List String → Int
  | [] => -1
  | y :: ys =>
      if y = x then 0
      else if jsIndexOf x ys = -1 then -1 else jsIndexOf x ys + 1

/-- The comparator passed to `groups.sort` in `groupEndpointsByTag`:
declared tags by index in `spec.tags`, undeclared tags to the end. -/
def tagCmp (tagOrder : List String) (a b : TagGroup) : Int :=
  let aIndex := jsIndexOf a.name tagOrder
  let bIndex := jsIndexOf b.name tagOrder
  if aIndex = -1 ∧ bIndex = -1 then 0
  else if aIndex = -1 then 1
  else if bIndex = -1 then -1
  else aIndex - bIndex

/-- `groupEndpointsByTag(spec)` of `src/unnamed/part_000`.  JS
`Array.prototype.sort` (stable, per the ECMAScript spec) is embedded as
`List.insertionSort` on the comparator's `≤ 0` relation. -/
def groupEndpointsByTag (spec : OpenAPISpec) : List TagGroup :=
  let endpoints := extractEndpoints spec
  let tagDescriptions := (spec.tags.getD []).foldl
    (fun m t => jsMapSet m t.name (t.description.getD "")) []
  let tagMap := buildTagMap endpoints
  let tagOrder := (spec.tags.getD []).map Tag.name
  let groups := tagMap.map (fun q =>
    TagGroup.mk q.1 (jsMapGet tagDescriptions q.1) q.2)
  let sorted := List.insertionSort (fun a b => tagCmp tagOrder a b ≤ 0) groups
  sorted.filter (fun g => decide (0 < g.endpoints.length))

/-! ## Reference resolution (`src/unnamed/part_000`) -/

/-- `spec.components?.schemas?.[name]`. -/
def lookupSchema (spec : OpenAPISpec) (name : String) : Option Schema :=
  match spec.components with
  | none => none
  | some c => jsMapGet (c.schemas.getD []) name

/-- `spec.components?.parameters?.[name]`. -/
def lookupParameter (spec : OpenAPISpec) (name : String) : Option Parameter :=
  match spec.components with
  | none => none
  | some c => jsMapGet (c.parameters.getD []) name

/-- `resolveRef(spec, ref)` of `src/unnamed/part_000`: single-hop
schema lookup, `undefined` unless the pointer starts with the exact
prefix and the name is present. -/
def resolveRef (spec : OpenAPISpec) (ref : String) : Option Schema :=
  if ¬ (("#/components/schemas/" : String).isPrefixOf ref) then none
  else lookupSchema spec (replaceFirstStr ref "#/components/schemas/" "")

/-- `resolveParameter(spec, param)` of `src/unnamed/part_000`. -/
def resolveParameter (spec : OpenAPISpec) (param : Parameter) :
    Option Parameter :=
  match param.ref with
  | some r =>
      if r = "" then some param
      else if ¬ (("#/components/parameters/" : String).isPrefixOf r) then none
      else lookupParameter spec (replaceFirstStr r "#/components/parameters/" "")
  | none => some param

/-- `resolveParameters(spec, operation)` of `src/unnamed/part_000`:
resolve in order, drop failures. -/
def resolveParameters (spec : OpenAPISpec) (operation : Operation) :
    List Parameter :=
  match operation.parameters with
  | none => []
  | some ps => ps.filterMap (resolveParameter spec)

/-! ## Docs view: schema resolution and example synthesis
(`src/docs-ui/src/components/EndpointView.tsx`) -/

/-- Schema-level `$ref` resolution as performed inline by the docs
view (`SchemaFields` and `generateExampleResponse`, EndpointView.tsx):
while `schema.$ref` is truthy, strip the first occurrence of
`#/components/schemas/` (no `startsWith` check in this code path, JS
`replace`), look the name up in `spec.components?.schemas`, and recurse
on a hit; on a miss (or no `$ref`) stop with the current schema.  The
source recursion is unbounded, so it takes fuel; `fuel = 0` returns the
schema unchanged. -/
def resolveSchema (spec : OpenAPISpec) : Nat → Schema → Schema
  | 0, s => s
  | fuel + 1, s =>
      match s.ref with
      | none => s
      | some r =>
          if r = "" then s
          else
            match lookupSchema spec (replaceFirstStr r "#/components/schemas/" "") with
            | some next => resolveSchema spec fuel next
            | none => s

/-- Specification-side predicate: the `$ref` chain starting at `s`
reaches a `$ref`-free schema within `n` lookups, every link being
present in `spec.components.schemas`. -/
def refChainOk (spec : OpenAPISpec) : Nat → Schema → Bool
  | 0, s => s.ref.isNone
  | n + 1, s =>
      match s.ref with
      | none => true
      | some r =>
          if r = "" then false
          else
            match lookupSchema spec (replaceFirstStr r "#/components/schemas/" "") with
            | some next => refChainOk spec n next
            | none => false

/-- Per-property value synthesized by the object branch of
`generateExampleResponse` (the `if`/`else if` chain over
`prop.example !== undefined`, `prop.type`, `prop.format`). -/
def genPropValue (p : Schema) : Json :=
  match p.exampleVal with
  | some e => e
  | none =>
      if p.type = some "string" then
        (if p.format = some "date-time" then Json.str "2024-01-01T00:00:00Z"
         else Json.str "string")
      else if p.type = some "number" ∨ p.type = some "integer" then Json.num 0
      else if p.type = some "boolean" then Json.bool true
      else if p.type = some "array" then Json.arr JsonList.nil
      else Json.null

/-- Specification-side restatement of the per-property synthesis rule,
written from the specification's wording: the property's own example if
present; else `"string"` for strings (a fixed ISO-8601 instant for
`date-time`), `0` for numbers and integers, `true` for booleans, an
empty sequence for arrays (shallow), and `null` otherwise. -/
def synthPropSpec (p : Schema) : Json :=
  match p.exampleVal with
  | some e => e
  | none =>
      if p.type = some "string" then
        (if p.format = some "date-time" then Json.str "2024-01-01T00:00:00Z"
         else Json.str "string")
      else if p.type = some "number" ∨ p.type = some "integer" then Json.num 0
      else if p.type = some "boolean" then Json.bool true
      else if p.type = some "array" then Json.arr JsonList.nil
      else Json.null

/-- `generateExampleResponse(schema, spec)` of EndpointView.tsx.  The
`Option Schema` argument is the possibly-undefined schema; fuel bounds
the source's recursion through `$ref` chains and array `items` (the
source has no bound; theorems quantify over sufficient fuel, and every
branch below is reached with any positive fuel). -/
def generateExampleResponse (spec : OpenAPISpec) : Nat → Option Schema → String
  | _, none => "\x7b\x7d"
  | 0, some _ => "\x7b\x7d"
  | fuel + 1, some s =>
      let resolved : Option Schema :=
        match s.ref with
        | some r =>
            if r = "" then none
            else lookupSchema spec (replaceFirstStr r "#/components/schemas/" "")
        | none => none
      match resolved with
      | some next => generateExampleResponse spec fuel (some next)
      | none =>
          let rest : String :=
            if s.type = some "array" then
              let itemExample :=
                match s.items with
                | some it => generateExampleResponse spec fuel (some it)
                | none => "\x7b\x7d"
              "[\n  " ++ itemExample ++ "\n]"
            else if s.type = some "object" ∧ s.properties.isSome = true then
              jsonStringify
                (Json.obj (jfields ((s.properties.getD []).map
                  (fun q => (q.1, genPropValue q.2))))) 0
            else "\x7b\x7d"
          match s.exampleVal with
          | some e => if jsTruthy e then jsonStringify e 0 else rest
          | none => rest

/-! ## Playground request builder
(`src/docs-ui/src/components/MethodBadge.tsx`, `Playground`) -/

/-- `spec?.servers?.[0]?.url || ''`. -/
def baseUrlOf (spec : OpenAPISpec) : String :=
  match spec.servers with
  | some (srv :: _) => srv.url
  | _ => ""

/-- The path-parameter substitution loop of `buildUrl`:
`builtPath = builtPath.replace('{name}', params[name] || '{name}')`. -/
def substPathLoop (params : String → String) :
    List Parameter → String → String
  | [], builtPath => builtPath
  | p :: ps, builtPath =>
      substPathLoop params ps
        (replaceFirstStr builtPath (placeholder p.name)
          (if params p.name = "" then placeholder p.name else params p.name))

/-- The query-part loop of `buildUrl`: push `name=encodeURIComponent(v)`
for every query parameter with a truthy (non-empty) value. -/
def queryLoop (params : String → String) : List Parameter → List String
  | [] => []
  | p :: ps =>
      (if params p.name = "" then []
       else [p.name ++ "=" ++ encodeURIComponent (params p.name)]) ++
        queryLoop params ps

/-- `buildUrl()` of the playground: base URL, path with substituted
path parameters, and `?`-prefixed `&`-joined query string. -/
def buildUrl (spec : OpenAPISpec) (e : Endpoint) (params : String → String) :
    String :=
  let allParams := resolveParameters spec e.operation
  let pathParams := allParams.filter (fun p => p.inLoc == "path")
  let queryParams := allParams.filter (fun p => p.inLoc == "query")
  let builtPath := substPathLoop params pathParams e.path
  let queryParts := queryLoop params queryParams
  let queryString :=
    if 0 < queryParts.length then "?" ++ String.intercalate "&" queryParts
    else ""
  baseUrlOf spec ++ builtPath ++ queryString

/-- The request assembled by `executeRequest` (its `fetch` call):
method, URL, header object in insertion order, optional body.  The
network transfer itself is outside the model. -/
structure BuiltRequest where
  method : String
  url : String
  headers : List (String × String)
  body : Option String

/-- `executeRequest`'s request construction (MethodBadge.tsx lines
105-111): a `Content-Type: application/json` header is always present,
`X-API-Key` iff the credential is truthy, and the body is the raw
entered text iff it is non-empty and the method is POST/PUT/PATCH. -/
def executedRequest (spec : OpenAPISpec) (e : Endpoint) (apiKey : String)
    (params : String → String) (requestBody : String) : BuiltRequest :=
  let headers := [("Content-Type", "application/json")] ++
    (if apiKey ≠ "" then [("X-API-Key", apiKey)] else [])
  let body :=
    if requestBody ≠ "" ∧ e.method ∈ [Method.post, Method.put, Method.patch]
    then some requestBody else none
  ⟨e.method.upper, buildUrl spec e params, headers, body⟩

/-- `generateCurl()` of the playground, rendered verbatim. -/
def generateCurl (spec : OpenAPISpec) (e : Endpoint) (apiKey : String)
    (params : String → String) (requestBody : String) : String :=
  let url := buildUrl spec e params
  let curl := "curl -X " ++ e.method.upper ++ " \\\n  '" ++ url ++ "'"
  let curl :=
    if apiKey ≠ "" then curl ++ (" \\\n  -H 'X-API-Key: " ++ apiKey ++ "'")
    else curl
  if requestBody ≠ "" ∧ e.method ∈ [Method.post, Method.put, Method.patch]
  then
    curl ++ " \\\n  -H 'Content-Type: application/json'" ++
      (" \\\n  -d '" ++ requestBody ++ "'")
  else curl

/-- The abstract request content of the rendered curl command: the
URL, the headers it names (in the order it prints them) and the body it
passes with `-d`. -/
def curlRequest (spec : OpenAPISpec) (e : Endpoint) (apiKey : String)
    (params : String → String) (requestBody : String) : BuiltRequest :=
  let bodyCond :=
    requestBody ≠ "" ∧ e.method ∈ [Method.post, Method.put, Method.patch]
  ⟨e.method.upper, buildUrl spec e params,
    (if apiKey ≠ "" then [("X-API-Key", apiKey)] else []) ++
      (if bodyCond then [("Content-Type", "application/json")] else []),
    if bodyCond then some requestBody else none⟩

/-- Rendering of an abstract request as a curl command line (same
layout as `generateCurl`). -/
def renderCurl (r : BuiltRequest) : String :=
  "curl -X " ++ r.method ++ " \\\n  '" ++ r.url ++ "'" ++
    String.join (r.headers.map
      (fun h => " \\\n  -H '" ++ h.1 ++ ": " ++ h.2 ++ "'")) ++
    (match r.body with
      | some b => " \\\n  -d '" ++ b ++ "'"
      | none => "")

/-! ## Specification-side helpers for the stated properties -/

/-- First-seen order of endpoint tags (after the `|| 'Other'`
defaulting), used to state the grouping order property. -/
def seenTags (eps : List Endpoint) : List String :=
  eps.foldl (fun a e => if endpointTag e ∈ a then a else a ++ [endpointTag e]) []

/-- Append newly grouped endpoints to a possibly-absent group content
(used to characterize the tag-map fold). -/
def groupAcc (o : Option (List Endpoint)) (f : List Endpoint) :
    Option (List Endpoint) :=
  match o, f with
  | some l, f => some (l ++ f)
  | none, [] => none
  | none, f => some f

/-! ## Concrete fixtures for witnesses and counterexamples -/

/-- Empty `info` used by the fixtures. -/
def emptyInfo : Info := ⟨"API", none, "1.0.0", none⟩

/-- An operation with the given tag list and parameter list. -/
def mkOp (tags : Option (List String)) (params : Option (List Parameter)) :
    Operation :=
  ⟨tags, none, none, none, params, none, none, none⟩

/-- A path item carrying only a GET operation. -/
def itemGet (op : Operation) : PathItem := ⟨some op, none, none, none, none⟩

/-- A path item carrying only a POST operation. -/
def itemPost (op : Operation) : PathItem := ⟨none, some op, none, none, none⟩

/-- A literal parameter with a name and a location. -/
def pParam (n loc : String) : Parameter := ⟨n, loc, none, none, none, none, none⟩

/-- A schema whose only field is `type: "integer"`. -/
def intSchema : Schema :=
  Schema.mk (some "integer") none none none none none none none none none

/-- A schema whose only field is a `$ref`. -/
def refSchema (r : String) : Schema :=
  Schema.mk none none none none none none none none none (some r)

/-- A boolean schema with the explicit (falsy) example `false`. -/
def sBoolFalse : Schema :=
  Schema.mk (some "boolean") none none none none none
    (some (Json.bool false)) none none none

/-- An object schema with one property `flag` whose example is `false`. -/
def sObjFlag : Schema :=
  Schema.mk (some "object") none none (some [("flag", sBoolFalse)]) none none
    none none none none

/-- A spec with no servers, no tags, no paths, no components. -/
def specEmpty : OpenAPISpec := ⟨"3.0.0", emptyInfo, none, none, [], none, none⟩

/-- A spec whose only component schema is `A := intSchema`. -/
def specOne : OpenAPISpec :=
  ⟨"3.0.0", emptyInfo, none, none, [],
    some ⟨some [("A", intSchema)], none, none⟩, none⟩

/-- A spec whose only component schema `A` references the absent `B`. -/
def specChain : OpenAPISpec :=
  ⟨"3.0.0", emptyInfo, none, none, [],
    some ⟨some [("A", refSchema "#/components/schemas/B")], none, none⟩, none⟩

/-- An operation without tags or parameters. -/
def opPlain : Operation := mkOp none none

/-- A spec with one server and a single plain GET path `/x`. -/
def specSrv : OpenAPISpec :=
  ⟨"3.0.0", emptyInfo, some [⟨"https://api.example.com", none⟩], none,
    [("/x", itemGet opPlain)], none, none⟩

/-- The `/x` GET endpoint of `specSrv`. -/
def eGetX : Endpoint := ⟨"/x", Method.get, opPlain⟩

/-- The `/x` POST endpoint (same operation object). -/
def ePostX : Endpoint := ⟨"/x", Method.post, opPlain⟩

/-- A spec with the single path `/a` (GET only) and a hidden path. -/
def specPaths : OpenAPISpec :=
  ⟨"3.0.0", emptyInfo, none, none,
    [("/a", itemGet opPlain), ("/api/v1/test-key", itemGet opPlain)],
    none, none⟩

/-- An operation whose declared first tag is the empty string. -/
def opTagEmpty : Operation := mkOp (some [""]) none

/-- A spec with one endpoint whose first declared tag is `""`. -/
def specTagE : OpenAPISpec :=
  ⟨"3.0.0", emptyInfo, none, none, [("/w", itemGet opTagEmpty)], none, none⟩

/-- An operation tagged `Health`. -/
def opHealth : Operation := mkOp (some ["Health"]) none

/-- A spec declaring the tag `Health` with one `/ping` endpoint. -/
def specTags : OpenAPISpec :=
  ⟨"3.0.0", emptyInfo, none, some [⟨"Health", some "Health checks"⟩],
    [("/ping", itemGet opHealth)], none, none⟩

/-- The operation of the `/markets/{id}` fixture: a path parameter
`id` and query parameters `a` and `b`. -/
def opMarkets : Operation :=
  mkOp none (some [pParam "id" "path", pParam "a" "query", pParam "b" "query"])

/-- The `/markets/{id}` endpoint. -/
def eMarkets : Endpoint := ⟨"/markets/\x7bid\x7d", Method.get, opMarkets⟩

/-- User values for the `/markets/{id}` fixture: `id=42`, `a=1`,
`b` empty. -/
def paramsM : String → String :=
  fun n => if n = "id" then "42" else if n = "a" then "1" else ""

/-- An operation with a single path parameter of the given name. -/
def opPathParam (n : String) : Operation := mkOp none (some [pParam n "path"])

/-- User values for the `/markets/{id}` fixture putting the JS
substitution pattern `$&` (ECMA-262 GetSubstitution: the matched text)
in the `id` slot. -/
def paramsDollar : String → String :=
  fun n => if n = "id" then "\x24&" else ""

/-! ## General-purpose lemmas -/

theorem strData_append (a b : String) : (a ++ b).data = a.data ++ b.data := by
  cases a; cases b; rfl

theorem strEq_of_data {a b : String} (h : a.data = b.data) : a = b := by
  cases a; cases b; exact congrArg String.mk h

theorem strAppend_assoc (a b c : String) : a ++ b ++ c = a ++ (b ++ c) :=
  strEq_of_data (by simp [strData_append])

theorem strAppend_empty (a : String) : a ++ "" = a :=
  strEq_of_data (by simp [strData_append])

theorem strEmpty_append (a : String) : "" ++ a = a :=
  strEq_of_data (by simp [strData_append])

theorem listContains_iff {α : Type} [BEq α] [LawfulBEq α] {l : List α} {a : α} :
    l.contains a = true ↔ a ∈ l := List.elem_iff

/-- A replacement containing no dollar character expands to itself. -/
theorem getSubstitution_no_dollar (before matched after : List Char)
    (rep : List Char) (h : Char.ofNat 36 ∉ rep) :
    getSubstitution before matched after rep = rep := by
  induction rep with
  | nil => rfl
  | cons c rest ih =>
      have hc : ¬ c = Char.ofNat 36 := fun hcc => h (by simp [hcc])
      have hrest : Char.ofNat 36 ∉ rest := fun hm => h (by simp [hm])
      rw [getSubstitution.eq_def]
      simp only [if_neg hc]
      rw [ih hrest]

/-- Replacing a dollar-free pattern by itself is the identity (the
source's `path.replace('{x}', '{x}')` no-op relies on this; it is *not*
the identity when the pattern contains `$`-substitution patterns). -/
theorem replaceFirstCharsAux_self (pat : List Char)
    (hp : Char.ofNat 36 ∉ pat) :
    ∀ (s before : List Char), replaceFirstCharsAux pat pat before s = s := by
  intro s
  induction s with
  | nil =>
      intro before
      cases pat with
      | nil => rfl
      | cons p ps => rfl
  | cons c cs ih =>
      intro before
      simp only [replaceFirstCharsAux]
      split
      · next h =>
          obtain ⟨t, ht⟩ := List.isPrefixOf_iff_prefix.mp h
          rw [getSubstitution_no_dollar _ _ _ _ hp, ← ht, List.drop_left]
      · rw [ih]

theorem replaceFirstStr_self (s pat : String)
    (hp : Char.ofNat 36 ∉ pat.data) :
    replaceFirstStr s pat pat = s := by
  unfold replaceFirstStr replaceFirstChars
  rw [replaceFirstCharsAux_self pat.data hp]

/-- When the displayed occurrence of the (non-empty) pattern is the
first one â no occurrence starts at a position inside `A` â JS
`replace` rewrites exactly it: the result is the prefix, the
`GetSubstitution` expansion of the replacement, and the untouched
suffix. -/
theorem replaceFirstCharsAux_at_first (p : Char) (ps rep : List Char) :
    ∀ (A B before : List Char),
    (∀ i, i < A.length →
      ¬ (p :: ps).isPrefixOf ((A ++ (p :: ps) ++ B).drop i)) →
    replaceFirstCharsAux (p :: ps) rep before (A ++ (p :: ps) ++ B) =
      A ++ getSubstitution (before ++ A) (p :: ps) B rep ++ B := by
  intro A
  induction A with
  | nil =>
      intro B before _
      rw [List.append_nil]
      show replaceFirstCharsAux (p :: ps) rep before (p :: (ps ++ B)) =
        getSubstitution before (p :: ps) B rep ++ B
      have hpre : ((p :: ps).isPrefixOf (p :: (ps ++ B))) = true :=
        List.isPrefixOf_iff_prefix.mpr ⟨B, by simp⟩
      simp only [replaceFirstCharsAux]
      rw [if_pos hpre]
      show getSubstitution before (p :: ps) ((ps ++ B).drop ps.length) rep ++
        (ps ++ B).drop ps.length = _
      rw [List.drop_left]
  | cons c A ih =>
      intro B before hfirst
      have h0 : ¬ ((p :: ps).isPrefixOf
          (c :: (A ++ (p :: ps) ++ B))) = true :=
        hfirst 0 (Nat.succ_pos A.length)
      have hshift : ∀ i, i < A.length →
          ¬ (p :: ps).isPrefixOf ((A ++ (p :: ps) ++ B).drop i) :=
        fun i hi => hfirst (i + 1) (Nat.succ_lt_succ hi)
      show replaceFirstCharsAux (p :: ps) rep before
          (c :: (A ++ (p :: ps) ++ B)) =
        c :: (A ++ getSubstitution (before ++ (c :: A)) (p :: ps) B rep ++ B)
      simp only [replaceFirstCharsAux]
      rw [if_neg h0, ih B (before ++ [c]) hshift]
      have hacc : before ++ [c] ++ A = before ++ (c :: A) := by
        rw [List.append_assoc]
        rfl
      rw [hacc]

theorem replaceFirstStr_at_first (A B pat rep : String) (hp : pat.data ≠ [])
    (hfirst : ∀ i, i < A.data.length →
      ¬ pat.data.isPrefixOf ((A.data ++ pat.data ++ B.data).drop i)) :
    replaceFirstStr (A ++ pat ++ B) pat rep =
      A ++ String.mk (getSubstitution A.data pat.data B.data rep.data) ++ B := by
  apply strEq_of_data
  unfold replaceFirstStr replaceFirstChars
  simp only [strData_append]
  rcases hpat : pat.data with _ | ⟨p, ps⟩
  · exact absurd hpat hp
  · rw [hpat] at hfirst
    have := replaceFirstCharsAux_at_first p ps rep.data A.data B.data []
      hfirst
    rw [List.nil_append] at this
    exact this

/-! ## C1 and C2: schema reference resolution -/

/-- C1 (amended): resolving a schema whose `$ref` chain reaches a
`$ref`-free schema within `n` present links returns a schema with no
remaining top-level `$ref` (for any fuel of at least `n`), and
resolving an already-resolved schema (no `$ref`) returns it unchanged.
The claim's original hypothesis — only the *first* link being present —
is not sufficient, see `resolveSchema_present_ref_cex`. -/
theorem resolveSchema_resolves_chain :
    (∀ (spec : OpenAPISpec) (n fuel : Nat) (s : Schema),
        refChainOk spec n s = true → n ≤ fuel →
        (resolveSchema spec fuel s).ref = none) ∧
    (∀ (spec : OpenAPISpec) (fuel : Nat) (s : Schema),
        s.ref = none → resolveSchema spec fuel s = s) := by
  constructor
  · intro spec n
    induction n with
    | zero =>
        intro fuel s h _
        have href : s.ref = none := by
          simpa [refChainOk, Option.isNone_iff_eq_none] using h
        cases fuel <;> simp [resolveSchema, href]
    | succ n ih =>
        intro fuel s h hle
        cases hs : s.ref with
        | none => cases fuel <;> simp [resolveSchema, hs]
        | some r =>
            cases fuel with
            | zero => omega
            | succ f =>
                by_cases hr : r = ""
                · rw [refChainOk, hs] at h
                  simp [hr] at h
                · cases hl : lookupSchema spec
                      (replaceFirstStr r "#/components/schemas/" "") with
                  | none =>
                      rw [refChainOk, hs] at h
                      simp [hr, hl] at h
                  | some next =>
                      rw [refChainOk, hs] at h
                      simp only [hr, if_neg, hl, if_false] at h
                      rw [resolveSchema, hs]
                      simp only [hr, if_false, hl]
                      exact ih f next (by simpa using h) (by omega)
  · intro spec fuel s h
    cases fuel <;> simp [resolveSchema, h]

/-- Witness for `resolveSchema_resolves_chain` at a one-link chain. -/
theorem resolveSchema_resolves_chain_witness :
    (resolveSchema specOne 5 (refSchema "#/components/schemas/A")).ref = none ∧
    resolveSchema specOne 5 intSchema = intSchema :=
  ⟨resolveSchema_resolves_chain.1 specOne 1 5 (refSchema "#/components/schemas/A")
      (by decide) (by omega),
    resolveSchema_resolves_chain.2 specOne 5 intSchema rfl⟩

/-- Counterexample to C1 as stated: the schema's `$ref` names `A`,
which *is* present in the components, yet the resolved result still
carries a top-level `$ref` (because `A` itself references the absent
`B`, where resolution falls through). -/
theorem resolveSchema_present_ref_cex :
    replaceFirstStr "#/components/schemas/A" "#/components/schemas/" "" = "A" ∧
    lookupSchema specChain "A" = some (refSchema "#/components/schemas/B") ∧
    (resolveSchema specChain 100 (refSchema "#/components/schemas/A")).ref =
      some "#/components/schemas/B" :=
  ⟨by decide, rfl, by decide⟩

/-- C2 (amended): when the looked-up name — the `$ref` with the first
occurrence of `#/components/schemas/` removed — is absent from the
component schemas (or the `$ref` is the empty string), `resolveSchema`
returns the input schema itself: no error, no absent value.  The
claim's other case (a `$ref` that merely lacks the exact prefix) does
*not* guarantee this, see `resolveSchema_prefix_mismatch_cex`: this
code path performs no `startsWith` check. -/
theorem resolveSchema_missing_name_unchanged (spec : OpenAPISpec) (s : Schema)
    (r : String) (fuel : Nat) (h : s.ref = some r)
    (h2 : r = "" ∨
      lookupSchema spec (replaceFirstStr r "#/components/schemas/" "") = none) :
    resolveSchema spec fuel s = s := by
  cases fuel with
  | zero => rfl
  | succ f =>
      rcases h2 with h2 | h2
      · simp [resolveSchema, h, h2]
      · by_cases hr : r = "" <;> simp [resolveSchema, h, hr, h2]

/-- Witness for `resolveSchema_missing_name_unchanged`. -/
theorem resolveSchema_missing_name_unchanged_witness :
    resolveSchema specEmpty 7 (refSchema "#/components/schemas/Missing") =
      refSchema "#/components/schemas/Missing" :=
  resolveSchema_missing_name_unchanged specEmpty
    (refSchema "#/components/schemas/Missing") "#/components/schemas/Missing" 7
    rfl (Or.inr rfl)

/-- Counterexample to C2 as stated: a `$ref` that does not start with
`#/components/schemas/` is still looked up under its literal text, and
resolves when a component of that raw name exists — the input is *not*
returned unresolved. -/
theorem resolveSchema_prefix_mismatch_cex :
    ("#/components/schemas/" : String).isPrefixOf "A" = false ∧
    (resolveSchema specOne 5 (refSchema "A")).type = some "integer" ∧
    (refSchema "A").type = none :=
  ⟨by decide, by decide, rfl⟩

/-! ## C3: explicit examples versus JS truthiness -/

/-- C3 (code bug): an explicit *falsy* example on the top-level schema
(here `example: false` on a boolean schema) is skipped — the source
tests `if (schema.example)`, so the synthesizer falls through and
returns the `'{}'` fallback instead of rendering the example `false`
verbatim.  The same example on a *nested property* is honored, because
the property loop tests `prop.example !== undefined`. -/
theorem generateExample_falsy_top_example_bug :
    sBoolFalse.exampleVal = some (Json.bool false) ∧
    jsonStringify (Json.bool false) 0 = "false" ∧
    generateExampleResponse specEmpty 10 (some sBoolFalse) = "\x7b\x7d" ∧
    generateExampleResponse specEmpty 10 (some sObjFlag) =
      "\x7b\n  \"flag\": false\n\x7d" :=
  ⟨rfl, rfl, rfl, rfl⟩

/-! ## C9: object synthesis rules -/

/-- C9: for an object schema with properties (and no explicit example
or reference of its own), `generateExampleResponse` renders one entry
per declared property in declaration order, valued by `synthPropSpec`:
the property's own example when present, else `"string"` /
a fixed ISO-8601 instant / `0` / `true` / `[]` (shallow) / `null`
according to the declared type; and any schema matching no synthesis
rule yields the empty object. -/
theorem generateExample_object_synthesis :
    (∀ p : Schema, genPropValue p = synthPropSpec p) ∧
    (∀ (spec : OpenAPISpec) (fuel : Nat) (s : Schema)
        (props : List (String × Schema)),
        s.ref = none → s.exampleVal = none → s.type = some "object" →
        s.properties = some props →
        generateExampleResponse spec (fuel + 1) (some s) =
          jsonStringify (Json.obj (jfields (props.map
            (fun q => (q.1, synthPropSpec q.2))))) 0) ∧
    (∀ (spec : OpenAPISpec) (fuel : Nat) (s : Schema),
        s.ref = none → s.exampleVal = none → s.type ≠ some "array" →
        (s.type = some "object" → s.properties = none) →
        generateExampleResponse spec (fuel + 1) (some s) = "\x7b\x7d") := by
  have hpv : ∀ p : Schema, genPropValue p = synthPropSpec p := fun _ => rfl
  refine ⟨hpv, ?_, ?_⟩
  · intro spec fuel s props h1 h2 h3 h4
    have hmap : props.map (fun q => (q.1, genPropValue q.2)) =
        props.map (fun q => (q.1, synthPropSpec q.2)) := by
      exact List.map_congr_left (fun q _ => by rw [hpv])
    rw [generateExampleResponse]
    simp [h1, h2, h3, h4, hmap]
  · intro spec fuel s h1 h2 h3 h4
    rw [generateExampleResponse]
    by_cases ho : s.type = some "object"
    · simp [h1, h2, h3, ho, h4 ho]
    · simp [h1, h2, h3, ho]

/-- Witness for `generateExample_object_synthesis` on the one-property
object fixture. -/
theorem generateExample_object_synthesis_witness :
    generateExampleResponse specEmpty 1 (some sObjFlag) =
      jsonStringify (Json.obj (jfields ([("flag", sBoolFalse)].map
        (fun q => (q.1, synthPropSpec q.2))))) 0 :=
  generateExample_object_synthesis.2.1 specEmpty 0 sObjFlag
    [("flag", sBoolFalse)] rfl rfl rfl rfl

/-! ## C5: headers and body of the executed request -/

/-- C5: for every executed request, a body is attached iff the method
is POST/PUT/PATCH and the entered body text is non-empty (and then it
is the entered text verbatim); the JSON content-type header is present
whenever a body is sent; the fixed-name `X-API-Key` header carries
exactly the credential and is present iff a credential is; and no
header other than the content-type and authentication headers is
synthesized. -/
theorem executeRequest_headers_body_spec (spec : OpenAPISpec) (e : Endpoint)
    (apiKey : String) (params : String → String) (requestBody : String) :
    ((executedRequest spec e apiKey params requestBody).body = some requestBody
        ↔ (requestBody ≠ "" ∧
            e.method ∈ [Method.post, Method.put, Method.patch])) ∧
    ((executedRequest spec e apiKey params requestBody).body ≠ none →
        ("Content-Type", "application/json") ∈
          (executedRequest spec e apiKey params requestBody).headers) ∧
    ((("X-API-Key", apiKey) ∈
        (executedRequest spec e apiKey params requestBody).headers)
      ↔ apiKey ≠ "") ∧
    (∀ v, ("X-API-Key", v) ∈
        (executedRequest spec e apiKey params requestBody).headers →
      v = apiKey) ∧
    (∀ h ∈ (executedRequest spec e apiKey params requestBody).headers,
        h.1 = "Content-Type" ∨ h.1 = "X-API-Key") ∧
    ((executedRequest spec e apiKey params requestBody).body = none ∨
      (executedRequest spec e apiKey params requestBody).body =
        some requestBody) := by
  by_cases ha : apiKey = "" <;>
    by_cases hb : requestBody ≠ "" ∧
      e.method ∈ [Method.post, Method.put, Method.patch] <;>
    refine ⟨?_, ?_, ?_, ?_, ?_, ?_⟩ <;>
    simp [executedRequest, ha, hb] <;>
    tauto

/-- Witness for `executeRequest_headers_body_spec` on a concrete POST. -/
theorem executeRequest_headers_body_spec_witness :
    (executedRequest specSrv ePostX "k" (fun _ => "") "x").body = some "x" ∧
    ("Content-Type", "application/json") ∈
      (executedRequest specSrv ePostX "k" (fun _ => "") "x").headers :=
  ⟨(executeRequest_headers_body_spec specSrv ePostX "k" (fun _ => "") "x").1.mpr
      ⟨by decide, by decide⟩,
    (executeRequest_headers_body_spec specSrv ePostX "k" (fun _ => "") "x").2.1
      (by decide)⟩

/-! ## C4: the rendered curl command versus the executed request -/

/-- C4 (amended): `generateCurl` renders exactly the abstract request
`curlRequest` (same URL, method and body as the executed request, and
it never names a header the executed request does not send); when a
body is sent the two header sets coincide as sets.  When *no* body is
sent they differ: the executed request still sends
`Content-Type: application/json` while the rendered command omits it —
see `generateCurl_header_set_cex`. -/
theorem generateCurl_matches_request_amended (spec : OpenAPISpec)
    (e : Endpoint) (apiKey : String) (params : String → String)
    (requestBody : String) :
    (generateCurl spec e apiKey params requestBody =
      renderCurl (curlRequest spec e apiKey params requestBody)) ∧
    ((curlRequest spec e apiKey params requestBody).url =
      (executedRequest spec e apiKey params requestBody).url) ∧
    ((curlRequest spec e apiKey params requestBody).method =
      (executedRequest spec e apiKey params requestBody).method) ∧
    ((curlRequest spec e apiKey params requestBody).body =
      (executedRequest spec e apiKey params requestBody).body) ∧
    ((curlRequest spec e apiKey params requestBody).headers ⊆
      (executedRequest spec e apiKey params requestBody).headers) ∧
    ((executedRequest spec e apiKey params requestBody).body ≠ none →
      ((curlRequest spec e apiKey params requestBody).headers).Perm
        ((executedRequest spec e apiKey params requestBody).headers)) := by
  have H1 : ∀ x : String,
      (" \\\n  -H '" : String) ++ ("X-API-Key" ++ (": " ++ x)) =
        " \\\n  -H 'X-API-Key: " ++ x := fun x => by
    rw [← strAppend_assoc, ← strAppend_assoc]
    rfl
  refine ⟨?_, rfl, rfl, rfl, ?_, ?_⟩
  · by_cases ha : apiKey = "" <;>
      by_cases hb : requestBody ≠ "" ∧
        (e.method = Method.post ∨ e.method = Method.put ∨
          e.method = Method.patch) <;>
      simp [generateCurl, curlRequest, renderCurl, ha, hb, String.join,
        strAppend_assoc, strAppend_empty, strEmpty_append] <;>
      rw [H1]
  · by_cases ha : apiKey = "" <;>
      by_cases hb : requestBody ≠ "" ∧
        (e.method = Method.post ∨ e.method = Method.put ∨
          e.method = Method.patch) <;>
      simp [curlRequest, executedRequest, ha, hb, List.subset_def]
  · intro h
    by_cases ha : apiKey = "" <;>
      by_cases hb : requestBody ≠ "" ∧
        (e.method = Method.post ∨ e.method = Method.put ∨
          e.method = Method.patch) <;>
      simp [curlRequest, executedRequest, ha, hb] at h ⊢ <;>
      exact List.Perm.swap _ _ _

/-- Witness for `generateCurl_matches_request_amended`: with a body the
header sets agree up to order. -/
theorem generateCurl_matches_request_amended_witness :
    ((curlRequest specSrv ePostX "k" (fun _ => "") "x").headers).Perm
      ((executedRequest specSrv ePostX "k" (fun _ => "") "x").headers) :=
  (generateCurl_matches_request_amended specSrv ePostX "k" (fun _ => "")
    "x").2.2.2.2.2 (by decide)

/-- Counterexample to C4 as stated: on a GET with no body, the
executed request sends two headers while the rendered command names
only one — the header sets (and omission rules for the content-type
header) differ. -/
theorem generateCurl_header_set_cex :
    (executedRequest specSrv eGetX "k" (fun _ => "") "").headers =
      [("Content-Type", "application/json"), ("X-API-Key", "k")] ∧
    (curlRequest specSrv eGetX "k" (fun _ => "") "").headers =
      [("X-API-Key", "k")] ∧
    generateCurl specSrv eGetX "k" (fun _ => "") "" =
      "curl -X GET \\\n  'https://api.example.com/x' \\\n  -H 'X-API-Key: k'" :=
  ⟨rfl, rfl, rfl⟩

/-! ## C8: URL and query-string construction -/

theorem dollar_not_in_placeholder (n : String)
    (h : Char.ofNat 36 ∉ n.data) :
    Char.ofNat 36 ∉ (placeholder n).data := by
  intro hm
  simp only [placeholder, strData_append, List.mem_append] at hm
  rcases hm with (hm | hm) | hm
  · exact absurd hm (by decide)
  · exact h hm
  · exact absurd hm (by decide)

theorem placeholder_data_ne_nil (n : String) : (placeholder n).data ≠ [] := by
  simp [placeholder, strData_append]

theorem substPathLoop_empty (ps : List Parameter) (path : String)
    (hps : ∀ p ∈ ps, Char.ofNat 36 ∉ p.name.data) :
    substPathLoop (fun _ => "") ps path = path := by
  induction ps generalizing path with
  | nil => rfl
  | cons p ps ih =>
      have hp : Char.ofNat 36 ∉ (placeholder p.name).data :=
        dollar_not_in_placeholder p.name (hps p (List.mem_cons_self p ps))
      have hrest : ∀ q ∈ ps, Char.ofNat 36 ∉ q.name.data :=
        fun q hq => hps q (List.mem_cons_of_mem p hq)
      simp [substPathLoop, replaceFirstStr_self _ _ hp, ih _ hrest]

theorem queryLoop_empty (ps : List Parameter) :
    queryLoop (fun _ => "") ps = [] := by
  induction ps with
  | nil => rfl
  | cons p ps ih => simp [queryLoop, ih]

theorem queryLoop_eq_filterMap (params : String → String)
    (ps : List Parameter) :
    queryLoop params ps = ps.filterMap (fun p =>
      if params p.name = "" then none
      else some (p.name ++ "=" ++ encodeURIComponent (params p.name))) := by
  induction ps with
  | nil => rfl
  | cons p ps ih =>
      by_cases h : params p.name = "" <;>
        simp [queryLoop, h, ih, List.filterMap_cons]

/-- `buildUrl` on a serverless spec with a single path parameter
`name`, on a template in which no occurrence of the placeholder starts
inside the prefix `A` (so the shown occurrence is the first): the
built URL is the prefix, then the GetSubstitution expansion of the
user value, then the untouched suffix. -/
theorem buildUrl_single_path_param (A B v name : String)
    (spec : OpenAPISpec)
    (hfirst : ∀ i, i < A.data.length →
      ¬ (placeholder name).data.isPrefixOf
        ((A.data ++ (placeholder name).data ++ B.data).drop i))
    (hv : v ≠ "") (hs : spec.servers = none) :
    buildUrl spec
        ⟨A ++ placeholder name ++ B, Method.get, opPathParam name⟩
        (fun n => if n = name then v else "") =
      A ++ String.mk
        (getSubstitution A.data (placeholder name).data B.data v.data) ++ B := by
  have hbase : baseUrlOf spec = "" := by simp [baseUrlOf, hs]
  simp [buildUrl, hbase, resolveParameters, resolveParameter, opPathParam,
    mkOp, pParam, substPathLoop, queryLoop, hv, strEmpty_append,
    strAppend_empty]
  rw [replaceFirstStr_at_first A B (placeholder name) v
    (placeholder_data_ne_nil name) hfirst]

/-- C8: URL building.  (1) With no user values and dollar-free
path-parameter names, every path placeholder stays in place and the
query string is empty, so the URL is exactly the base URL plus the
path template (JS string-replace expands dollar-patterns in the
replacement, so a dollar in a parameter name corrupts even the kept
placeholder).  (2) A provided non-empty dollar-free value replaces the
first occurrence of its placeholder verbatim.  (3) The query parts are
exactly name=percent-encoded-value for the query-location parameters
with a non-empty value — parameters with an empty value are omitted
entirely, never emitted as name=.  (4) The URL is the base, then the
substituted path, then (only when some query part exists) ? plus the
&-join of the parts.  (5) On /markets/\x7bid\x7d with id=42, a=1 and b
empty the result is exactly /markets/42?a=1. -/
theorem buildUrl_query_spec :
    (∀ (spec : OpenAPISpec) (e : Endpoint),
        (∀ p ∈ (resolveParameters spec e.operation).filter
            (fun p => p.inLoc == "path"),
          Char.ofNat 36 ∉ p.name.data) →
        buildUrl spec e (fun _ => "") = baseUrlOf spec ++ e.path) ∧
    (∀ (A B v name : String) (spec : OpenAPISpec),
        (∀ i, i < A.data.length →
          ¬ (placeholder name).data.isPrefixOf
            ((A.data ++ (placeholder name).data ++ B.data).drop i)) →
        v ≠ "" → Char.ofNat 36 ∉ v.data → spec.servers = none →
        buildUrl spec
            ⟨A ++ placeholder name ++ B, Method.get, opPathParam name⟩
            (fun n => if n = name then v else "") = A ++ v ++ B) ∧
    (∀ (params : String → String) (qs : List Parameter),
        queryLoop params qs = qs.filterMap (fun p =>
          if params p.name = "" then none
          else some (p.name ++ "=" ++ encodeURIComponent (params p.name)))) ∧
    (∀ (spec : OpenAPISpec) (e : Endpoint) (params : String → String),
        buildUrl spec e params =
          baseUrlOf spec ++
            substPathLoop params
              ((resolveParameters spec e.operation).filter
                (fun p => p.inLoc == "path")) e.path ++
            (if queryLoop params
                  ((resolveParameters spec e.operation).filter
                    (fun p => p.inLoc == "query")) = [] then ""
             else "?" ++ String.intercalate "&"
                (queryLoop params
                  ((resolveParameters spec e.operation).filter
                    (fun p => p.inLoc == "query"))))) ∧
    buildUrl specEmpty eMarkets paramsM = "/markets/42?a=1" := by
  refine ⟨?_, ?_, queryLoop_eq_filterMap, ?_, by rfl⟩
  · intro spec e hps
    simp only [buildUrl]
    rw [substPathLoop_empty _ _ hps, queryLoop_empty]
    simp [strAppend_empty]
  · intro A B v name spec hfirst hv hvd hs
    rw [buildUrl_single_path_param A B v name spec hfirst hv hs,
      getSubstitution_no_dollar A.data (placeholder name).data B.data
        v.data hvd]
  · intro spec e params
    simp only [buildUrl]
    rcases h : queryLoop params ((resolveParameters spec e.operation).filter
        (fun p => p.inLoc == "query")) with _ | ⟨a, as⟩ <;>
      simp [h, strAppend_empty]

/-- Witness for `buildUrl_query_spec`: leave-in-place with no values,
and verbatim substitution of the dollar-free value `42`. -/
theorem buildUrl_query_spec_witness :
    buildUrl specEmpty eMarkets (fun _ => "") = "/markets/\x7bid\x7d" ∧
    buildUrl specEmpty
        ⟨"/markets/" ++ placeholder "id" ++ "", Method.get,
          opPathParam "id"⟩
        (fun n => if n = "id" then "42" else "") = "/markets/42" := by
  constructor
  · have h := buildUrl_query_spec.1 specEmpty eMarkets (by decide)
    rw [h]
    rfl
  · have h := buildUrl_query_spec.2.1 "/markets/" "" "42" "id" specEmpty
      (by decide) (by decide) (by decide) rfl
    rw [h]
    rfl

/-- Counterexample for C8: JS string-replace runs the replacement
string through ECMA-262 GetSubstitution, so the user value dollar-amp
for `id` re-inserts the matched placeholder text instead of appearing
verbatim — the built URL keeps the placeholder and never contains the
entered value. -/
theorem buildUrl_dollar_value_cex :
    paramsDollar "id" = "\x24&" ∧
    buildUrl specEmpty eMarkets paramsDollar = "/markets/\x7bid\x7d" ∧
    buildUrl specEmpty eMarkets paramsDollar ≠
      "/markets/" ++ paramsDollar "id" :=
  ⟨rfl, by rfl, by decide⟩

/-! ## C10: only the first placeholder occurrence is substituted -/

/-- C10: for a path template `A ++ \x7bname\x7d ++ B` in which no
occurrence of the placeholder starts inside the prefix `A` (the shown
occurrence is the first), a provided value rewrites only that
occurrence: the built URL is `A`, then the GetSubstitution expansion
of the value, then the suffix `B` kept verbatim — so every placeholder
occurrence inside `B`, in particular a repetition of `\x7bname\x7d`
itself, survives as literal text in the built URL. -/
theorem buildUrl_first_occurrence_only (A B v name : String)
    (spec : OpenAPISpec)
    (hfirst : ∀ i, i < A.data.length →
      ¬ (placeholder name).data.isPrefixOf
        ((A.data ++ (placeholder name).data ++ B.data).drop i))
    (hv : v ≠ "") (hs : spec.servers = none) :
    buildUrl spec
        ⟨A ++ placeholder name ++ B, Method.get, opPathParam name⟩
        (fun n => if n = name then v else "") =
      A ++ String.mk
        (getSubstitution A.data (placeholder name).data B.data v.data) ++ B ∧
    (List.IsInfix (placeholder name).data B.data →
      List.IsInfix (placeholder name).data
        (buildUrl spec
          ⟨A ++ placeholder name ++ B, Method.get, opPathParam name⟩
          (fun n => if n = name then v else "")).data) := by
  have hmain := buildUrl_single_path_param A B v name spec hfirst hv hs
  refine ⟨hmain, fun h => ?_⟩
  rw [hmain, strData_append]
  exact h.trans (List.suffix_append _ B.data).isInfix

/-- Witness for `buildUrl_first_occurrence_only`: a template with an
earlier different placeholder `\x7bx\x7d` and with `\x7bid\x7d` twice —
the first `\x7bid\x7d` is substituted, the second stays literal. -/
theorem buildUrl_first_occurrence_only_witness :
    buildUrl specEmpty
        ⟨"/p/\x7bx\x7d/" ++ placeholder "id" ++ "/\x7bid\x7d", Method.get,
          opPathParam "id"⟩
        (fun n => if n = "id" then "7" else "") =
      "/p/\x7bx\x7d/7/\x7bid\x7d" := by
  have h := (buildUrl_first_occurrence_only "/p/\x7bx\x7d/" "/\x7bid\x7d" "7"
    "id" specEmpty (by decide) (by decide) rfl).1
  rw [h]
  rfl

/-! ## C6: endpoint extraction -/

theorem methodLoop_eq_filterMap (p : String) (item : PathItem)
    (ms : List Method) :
    methodLoop p item ms = ms.filterMap (fun m =>
      (pathItemGet item m).map (fun op => ⟨p, m, op⟩)) := by
  induction ms with
  | nil => rfl
  | cons m ms ih =>
      cases h : pathItemGet item m <;>
        simp [methodLoop, h, ih, List.filterMap_cons]

theorem extractLoop_eq_flatMap (ps : List (String × PathItem)) :
    extractLoop ps = ps.flatMap (fun q =>
      if q.1 ∈ HIDDEN_ENDPOINTS then []
      else methodsOrder.filterMap (fun m =>
        (pathItemGet q.2 m).map (fun op => ⟨q.1, m, op⟩))) := by
  induction ps with
  | nil => rfl
  | cons q ps ih =>
      rcases q with ⟨p, item⟩
      rw [extractLoop, List.flatMap_cons, ih, methodLoop_eq_filterMap]
      by_cases h : p ∈ HIDDEN_ENDPOINTS
      · rw [if_pos (listContains_iff.mpr h), if_pos h]
      · rw [if_neg (fun hc => h (listContains_iff.mp hc)), if_neg h]

theorem methodLoop_path (p : String) (item : PathItem) (ms : List Method) :
    ∀ e ∈ methodLoop p item ms, e.path = p := by
  induction ms with
  | nil => intro e he; simp [methodLoop] at he
  | cons m ms ih =>
      intro e he
      rw [methodLoop] at he
      rcases List.mem_append.mp he with he | he
      · cases h : pathItemGet item m <;> rw [h] at he <;> simp at he
        rw [he]
      · exact ih e he

theorem methodLoop_keys_sublist (p : String) (item : PathItem)
    (ms : List Method) :
    List.Sublist ((methodLoop p item ms).map (fun e => (e.path, e.method)))
      (ms.map (fun m => (p, m))) := by
  induction ms with
  | nil => simp [methodLoop]
  | cons m ms ih =>
      cases h : pathItemGet item m
      · simp only [methodLoop, h, List.nil_append]
        exact ih.cons (p, m)
      · simp [methodLoop, h]
        exact ih

theorem extractLoop_path_mem (ps : List (String × PathItem)) :
    ∀ e ∈ extractLoop ps, e.path ∈ ps.map Prod.fst := by
  induction ps with
  | nil => intro e he; simp [extractLoop] at he
  | cons q ps ih =>
      intro e he
      rw [extractLoop] at he
      rcases List.mem_append.mp he with he | he
      · by_cases h : HIDDEN_ENDPOINTS.contains q.1
        · rw [if_pos h] at he; simp at he
        · rw [if_neg h] at he
          have := methodLoop_path q.1 q.2 methodsOrder e he
          simp [this]
      · simp [ih e he]

theorem extractLoop_keys_nodup (ps : List (String × PathItem))
    (h : (ps.map Prod.fst).Nodup) :
    ((extractLoop ps).map (fun e => (e.path, e.method))).Nodup := by
  induction ps with
  | nil => simp [extractLoop]
  | cons q ps ih =>
      rw [extractLoop, List.map_append]
      rw [List.map_cons] at h
      have hq : q.1 ∉ ps.map Prod.fst := (List.nodup_cons.mp h).1
      have hps : (ps.map Prod.fst).Nodup := (List.nodup_cons.mp h).2
      apply List.Nodup.append
      · by_cases hh : HIDDEN_ENDPOINTS.contains q.1
        · rw [if_pos hh]; simp
        · rw [if_neg hh]
          exact List.Nodup.sublist (methodLoop_keys_sublist q.1 q.2 methodsOrder)
            ((by decide : methodsOrder.Nodup).map
              (fun a b hab => by simpa using congrArg Prod.snd hab))
      · exact ih hps
      · intro x hx hx2
        rcases List.mem_map.mp hx2 with ⟨e, he, hex⟩
        have hep : e.path ∈ ps.map Prod.fst := extractLoop_path_mem ps e he
        by_cases hh : HIDDEN_ENDPOINTS.contains q.1
        · rw [if_pos hh] at hx; simp at hx
        · rw [if_neg hh] at hx
          rcases List.mem_map.mp hx with ⟨e2, he2, he2x⟩
          have hpq : e2.path = q.1 := methodLoop_path q.1 q.2 methodsOrder e2 he2
          have hpp : e2.path = e.path := by
            have h12 : (e2.path, e2.method) = (e.path, e.method) :=
              he2x.trans hex.symm
            exact congrArg Prod.fst h12
          exact hq (by rw [← hpq, hpp]; exact hep)

/-- C6: `extractEndpoints` walks `spec.paths` in document key order
and, per path, the fixed method order `[get, post, put, delete,
patch]`, skipping hidden paths entirely (flat-map characterization); it
never returns an endpoint whose path is hidden; for duplicate-free path
keys it returns at most one endpoint per `(path, method)` pair; and
every present `(path, method, operation)` with a non-hidden path is
returned. -/
theorem extractEndpoints_spec (spec : OpenAPISpec) :
    (∀ e ∈ extractEndpoints spec, e.path ∉ HIDDEN_ENDPOINTS) ∧
    extractEndpoints spec = spec.paths.flatMap (fun q =>
      if q.1 ∈ HIDDEN_ENDPOINTS then []
      else methodsOrder.filterMap (fun m =>
        (pathItemGet q.2 m).map (fun op => ⟨q.1, m, op⟩))) ∧
    ((spec.paths.map Prod.fst).Nodup →
      ((extractEndpoints spec).map (fun e => (e.path, e.method))).Nodup) ∧
    (∀ p item m op, (p, item) ∈ spec.paths → p ∉ HIDDEN_ENDPOINTS →
      pathItemGet item m = some op →
      (⟨p, m, op⟩ : Endpoint) ∈ extractEndpoints spec) := by
  refine ⟨?_, extractLoop_eq_flatMap spec.paths, extractLoop_keys_nodup spec.paths, ?_⟩
  · intro e he hhid
    rw [extractEndpoints, extractLoop_eq_flatMap] at he
    rcases List.mem_flatMap.mp he with ⟨q, hq, hin⟩
    by_cases h : q.1 ∈ HIDDEN_ENDPOINTS
    · rw [if_pos h] at hin; simp at hin
    · rw [if_neg h] at hin
      rcases List.mem_filterMap.mp hin with ⟨m, _, hm⟩
      cases hop : pathItemGet q.2 m <;> rw [hop] at hm <;> simp at hm
      apply h
      rw [← hm] at hhid
      simpa using hhid
  · intro p item m op hmem hhid hop
    rw [extractEndpoints, extractLoop_eq_flatMap]
    apply List.mem_flatMap.mpr
    refine ⟨(p, item), hmem, ?_⟩
    rw [if_neg hhid]
    apply List.mem_filterMap.mpr
    refine ⟨m, by cases m <;> simp [methodsOrder], ?_⟩
    rw [hop]; rfl

/-- Witness for `extractEndpoints_spec`: the fixture with one visible
and one hidden path. -/
theorem extractEndpoints_spec_witness :
    ((extractEndpoints specPaths).map (fun e => (e.path, e.method))).Nodup ∧
    (⟨"/a", Method.get, opPlain⟩ : Endpoint) ∈ extractEndpoints specPaths :=
  ⟨(extractEndpoints_spec specPaths).2.2.1 (by decide),
    (extractEndpoints_spec specPaths).2.2.2 "/a" (itemGet opPlain) Method.get
      opPlain (List.mem_cons_self _ _) (by decide) rfl⟩

/-! ## C7: tag grouping — map/fold lemmas -/

theorem jsMapAny_iff {α : Type} (m : List (String × α)) (t : String) :
    m.any (fun q => q.1 == t) = true ↔ t ∈ m.map Prod.fst := by
  rw [List.any_eq_true]
  constructor
  · rintro ⟨q, hq, hqt⟩
    exact List.mem_map.mpr ⟨q, hq, by simpa using hqt⟩
  · intro h
    rcases List.mem_map.mp h with ⟨q, hq, hqt⟩
    exact ⟨q, hq, by simpa using hqt⟩

theorem findUpd (m : List (String × List Endpoint)) (t t2 : String)
    (e : Endpoint) :
    (m.map (fun q => if q.1 == t then (q.1, q.2 ++ [e]) else q)).find?
      (fun q => q.1 == t2) =
    (m.find? (fun q => q.1 == t2)).map
      (fun q => if q.1 == t then (q.1, q.2 ++ [e]) else q) := by
  induction m with
  | nil => rfl
  | cons q m ih =>
      have hfst : ((if q.1 == t then (q.1, q.2 ++ [e]) else q) :
          String × List Endpoint).1 = q.1 := by
        by_cases hq : (q.1 == t) = true <;> simp [hq]
      by_cases h2 : (q.1 == t2) = true
      · have hup : (((if q.1 == t then (q.1, q.2 ++ [e]) else q) :
            String × List Endpoint).1 == t2) = true := by
          rw [hfst]; exact h2
        have hl : ((q :: m).map
            (fun q => if q.1 == t then (q.1, q.2 ++ [e]) else q)).find?
              (fun q => q.1 == t2) =
            some (if q.1 == t then (q.1, q.2 ++ [e]) else q) := by
          rw [List.map_cons]
          exact List.find?_cons_of_pos _ hup
        have hr : ((q :: m).find? (fun q => q.1 == t2)) = some q :=
          List.find?_cons_of_pos _ h2
        rw [hl, hr]
        rfl
      · have hup : ¬ (((if q.1 == t then (q.1, q.2 ++ [e]) else q) :
            String × List Endpoint).1 == t2) = true := by
          rw [hfst]; exact h2
        have hl : ((q :: m).map
            (fun q => if q.1 == t then (q.1, q.2 ++ [e]) else q)).find?
              (fun q => q.1 == t2) =
            (m.map (fun q => if q.1 == t then (q.1, q.2 ++ [e]) else q)).find?
              (fun q => q.1 == t2) := by
          rw [List.map_cons]
          exact List.find?_cons_of_neg _ hup
        have hr : ((q :: m).find? (fun q => q.1 == t2)) =
            m.find? (fun q => q.1 == t2) :=
          List.find?_cons_of_neg _ h2
        rw [hl, hr, ih]

theorem tagMapPush_get_same (m : List (String × List Endpoint)) (t : String)
    (e : Endpoint) :
    jsMapGet (tagMapPush m t e) t =
      some ((jsMapGet m t).getD [] ++ [e]) := by
  unfold tagMapPush
  by_cases h : m.any (fun q => q.1 == t) = true
  · rw [if_pos h]
    unfold jsMapGet
    rw [findUpd]
    rcases hs : m.find? (fun q => q.1 == t) with _ | q0
    · rcases List.any_eq_true.mp h with ⟨q, hq, hqt⟩
      have := List.find?_eq_none.mp hs q hq
      exact absurd hqt this
    · have hq0 := List.find?_some hs
      have hq0t : (q0.1 == t) = true := by simpa using hq0
      have hq2 : q0.1 = t := by simpa using hq0t
      rw [hs]
      simp [hq0t, hq2]
  · rw [if_neg h]
    unfold jsMapGet
    rw [List.find?_append]
    have hnone : m.find? (fun q => q.1 == t) = none := by
      rw [List.find?_eq_none]
      intro q hq hqt
      exact h (List.any_eq_true.mpr ⟨q, hq, hqt⟩)
    simp [hnone]

theorem tagMapPush_get_other (m : List (String × List Endpoint)) (t t2 : String)
    (e : Endpoint) (hne : t2 ≠ t) :
    jsMapGet (tagMapPush m t e) t2 = jsMapGet m t2 := by
  unfold tagMapPush
  by_cases h : m.any (fun q => q.1 == t) = true
  · rw [if_pos h]
    unfold jsMapGet
    rw [findUpd]
    rcases hs : m.find? (fun q => q.1 == t2) with _ | q0
    · rw [hs]
      rfl
    · have hq0 := List.find?_some hs
      have hq02 : (q0.1 == t2) = true := by simpa using hq0
      have hq2 : q0.1 = t2 := by simpa using hq02
      have hq0t : (q0.1 == t) = false := by simp [hq2, hne]
      rw [hs]
      simp [hq0t, hq2, hne]
  · rw [if_neg h]
    unfold jsMapGet
    rw [List.find?_append]
    have h2 : ([(t, [e])].find? (fun q => q.1 == t2)) = none := by
      simp [Ne.symm hne]
    rw [h2, Option.or_none]

theorem tagMapPush_keys (m : List (String × List Endpoint)) (t : String)
    (e : Endpoint) :
    (tagMapPush m t e).map Prod.fst =
      if t ∈ m.map Prod.fst then m.map Prod.fst
      else m.map Prod.fst ++ [t] := by
  unfold tagMapPush
  by_cases h : m.any (fun q => q.1 == t) = true
  · rw [if_pos h, if_pos ((jsMapAny_iff m t).mp h)]
    rw [List.map_map]
    apply List.map_congr_left
    intro q _
    show ((if q.1 == t then (q.1, q.2 ++ [e]) else q) :
      String × List Endpoint).1 = q.1
    by_cases hq : (q.1 == t) = true <;> simp [hq]
  · rw [if_neg h, if_neg (fun hm => h ((jsMapAny_iff m t).mpr hm))]
    simp

theorem buildTagMapAux_get (eps : List Endpoint) :
    ∀ (m : List (String × List Endpoint)) (t : String),
    jsMapGet (eps.foldl (fun m e => tagMapPush m (endpointTag e) e) m) t =
      groupAcc (jsMapGet m t) (eps.filter (fun e => endpointTag e == t)) := by
  induction eps with
  | nil =>
      intro m t
      simp [groupAcc]
      rcases jsMapGet m t with _ | l <;> simp [groupAcc]
  | cons e eps ih =>
      intro m t
      rw [List.foldl_cons, ih]
      by_cases ht : endpointTag e = t
      · rw [← ht, tagMapPush_get_same]
        have hf : (e :: eps).filter
            (fun x => endpointTag x == endpointTag e) =
            e :: eps.filter (fun x => endpointTag x == endpointTag e) := by
          simp [List.filter_cons]
        rw [hf]
        rcases hm : jsMapGet m (endpointTag e) with _ | l
        · simp [groupAcc]
        · simp [groupAcc]
      · rw [tagMapPush_get_other _ _ _ _ (fun hx => ht hx.symm)]
        have hf : (e :: eps).filter (fun x => endpointTag x == t) =
            eps.filter (fun x => endpointTag x == t) := by
          simp [List.filter_cons, ht]
        rw [hf]

theorem buildTagMap_get (eps : List Endpoint) (t : String) :
    jsMapGet (buildTagMap eps) t =
      groupAcc none (eps.filter (fun e => endpointTag e == t)) := by
  rw [buildTagMap, buildTagMapAux_get]
  rfl

theorem buildTagMapAux_keys (eps : List Endpoint) :
    ∀ (m : List (String × List Endpoint)),
    (eps.foldl (fun m e => tagMapPush m (endpointTag e) e) m).map Prod.fst =
      eps.foldl
        (fun a e => if endpointTag e ∈ a then a else a ++ [endpointTag e])
        (m.map Prod.fst) := by
  induction eps with
  | nil => intro m; rfl
  | cons e eps ih =>
      intro m
      rw [List.foldl_cons, List.foldl_cons, ih, tagMapPush_keys]

theorem buildTagMap_keys (eps : List Endpoint) :
    (buildTagMap eps).map Prod.fst = seenTags eps := by
  rw [buildTagMap, buildTagMapAux_keys]
  rfl

theorem seenTagsAux_nodup (eps : List Endpoint) :
    ∀ (a : List String), a.Nodup →
    (eps.foldl
      (fun a e => if endpointTag e ∈ a then a else a ++ [endpointTag e])
      a).Nodup := by
  induction eps with
  | nil => intro a ha; exact ha
  | cons e eps ih =>
      intro a ha
      rw [List.foldl_cons]
      by_cases h : endpointTag e ∈ a
      · rw [if_pos h]; exact ih a ha
      · rw [if_neg h]
        refine ih _ ?_
        simp [List.nodup_append, ha, h]

theorem seenTags_nodup (eps : List Endpoint) : (seenTags eps).Nodup :=
  seenTagsAux_nodup eps [] List.nodup_nil

theorem jsMapGet_of_mem {α : Type} (m : List (String × α))
    (hn : (m.map Prod.fst).Nodup) (t : String) (l : α) (hm : (t, l) ∈ m) :
    jsMapGet m t = some l := by
  induction m with
  | nil => simp at hm
  | cons q m ih =>
      rw [List.map_cons, List.nodup_cons] at hn
      rcases List.mem_cons.mp hm with hm | hm
      · rw [← hm]
        unfold jsMapGet
        simp
      · have hq : q.1 ≠ t := by
          intro hq
          apply hn.1
          rw [hq]
          exact List.mem_map.mpr ⟨(t, l), hm, rfl⟩
        unfold jsMapGet
        rw [List.find?_cons_of_neg _ (by simpa using hq)]
        exact ih hn.2 hm

/-! ## C7: tag grouping — comparator and sort lemmas -/

theorem jsIndexOf_lb (x : String) (l : List String) : -1 ≤ jsIndexOf x l := by
  induction l with
  | nil => simp [jsIndexOf]
  | cons y ys ih =>
      rw [jsIndexOf]
      split_ifs <;> omega

theorem jsIndexOf_eq_neg_one_iff (x : String) (l : List String) :
    jsIndexOf x l = -1 ↔ x ∉ l := by
  induction l with
  | nil => simp [jsIndexOf]
  | cons y ys ih =>
      rw [jsIndexOf]
      by_cases h : y = x
      · subst h
        simp
      · rw [if_neg h]
        by_cases hi : jsIndexOf x ys = -1
        · rw [if_pos hi]
          have hmem : x ∉ y :: ys := by
            rw [List.mem_cons, not_or]
            exact ⟨fun hxy => h hxy.symm, ih.mp hi⟩
          simp [hmem]
        · rw [if_neg hi]
          have hlb := jsIndexOf_lb x ys
          have hmem : x ∈ ys := by
            by_contra hc
            exact hi (ih.mpr hc)
          constructor
          · intro hcon; omega
          · intro hcon; exact absurd (List.mem_cons_of_mem y hmem) hcon

theorem tagCmp_le_iff (tagOrder : List String) (a b : TagGroup) :
    tagCmp tagOrder a b ≤ 0 ↔
      (jsIndexOf b.name tagOrder = -1 ∨
        (jsIndexOf a.name tagOrder ≠ -1 ∧
          jsIndexOf a.name tagOrder ≤ jsIndexOf b.name tagOrder)) := by
  simp only [tagCmp]
  split_ifs with h1 h2 h3 <;> omega

theorem tagCmp_total (tagOrder : List String) (a b : TagGroup) :
    tagCmp tagOrder a b ≤ 0 ∨ tagCmp tagOrder b a ≤ 0 := by
  rw [tagCmp_le_iff, tagCmp_le_iff]
  omega

theorem tagCmp_trans (tagOrder : List String) (a b c : TagGroup) :
    tagCmp tagOrder a b ≤ 0 → tagCmp tagOrder b c ≤ 0 →
    tagCmp tagOrder a c ≤ 0 := by
  rw [tagCmp_le_iff, tagCmp_le_iff, tagCmp_le_iff]
  omega

theorem orderedInsert_filter_und (tagOrder : List String) (x : TagGroup)
    (m : List TagGroup) (hx : jsIndexOf x.name tagOrder = -1) :
    (List.orderedInsert (fun a b => tagCmp tagOrder a b ≤ 0) x m).filter
        (fun g => decide (jsIndexOf g.name tagOrder = -1)) =
      x :: m.filter (fun g => decide (jsIndexOf g.name tagOrder = -1)) := by
  induction m with
  | nil => simp [List.orderedInsert, hx]
  | cons y ys ih =>
      rw [List.orderedInsert]
      by_cases hr : tagCmp tagOrder x y ≤ 0
      · rw [if_pos hr]
        simp [List.filter_cons, hx]
      · rw [if_neg hr]
        have hy : jsIndexOf y.name tagOrder ≠ -1 := by
          intro hy
          exact hr ((tagCmp_le_iff tagOrder x y).mpr (Or.inl hy))
        rw [List.filter_cons, List.filter_cons]
        simp only [hy, decide_eq_true_eq, if_neg hy]
        simpa [hy] using ih

theorem orderedInsert_filter_decl (tagOrder : List String) (x : TagGroup)
    (m : List TagGroup) (hx : jsIndexOf x.name tagOrder ≠ -1) :
    (List.orderedInsert (fun a b => tagCmp tagOrder a b ≤ 0) x m).filter
        (fun g => decide (jsIndexOf g.name tagOrder = -1)) =
      m.filter (fun g => decide (jsIndexOf g.name tagOrder = -1)) := by
  induction m with
  | nil => simp [List.orderedInsert, hx]
  | cons y ys ih =>
      rw [List.orderedInsert]
      by_cases hr : tagCmp tagOrder x y ≤ 0
      · rw [if_pos hr]
        simp [List.filter_cons, hx]
      · rw [if_neg hr]
        rw [List.filter_cons, List.filter_cons]
        by_cases hy : jsIndexOf y.name tagOrder = -1 <;> simp [hy, ih]

theorem insertionSort_filter_und (tagOrder : List String) (l : List TagGroup) :
    (List.insertionSort (fun a b => tagCmp tagOrder a b ≤ 0) l).filter
        (fun g => decide (jsIndexOf g.name tagOrder = -1)) =
      l.filter (fun g => decide (jsIndexOf g.name tagOrder = -1)) := by
  induction l with
  | nil => rfl
  | cons b l ih =>
      rw [List.insertionSort]
      by_cases hb : jsIndexOf b.name tagOrder = -1
      · rw [orderedInsert_filter_und tagOrder b _ hb, ih, List.filter_cons]
        simp [hb]
      · rw [orderedInsert_filter_decl tagOrder b _ hb, ih, List.filter_cons]
        simp [hb]

/-! ## C7: tag grouping — main theorem -/

theorem groupAcc_none_some (f l : List Endpoint)
    (h : groupAcc none f = some l) : l = f ∧ f ≠ [] := by
  cases f with
  | nil => simp [groupAcc] at h
  | cons e es =>
      simp [groupAcc] at h
      exact ⟨h.symm, by simp⟩

theorem filter_name_map_mk (bt : List (String × List Endpoint))
    (descr : List (String × String)) (p : String → Bool) :
    ((bt.map (fun q => TagGroup.mk q.1 (jsMapGet descr q.1) q.2)).filter
        (fun g => p g.name)).map TagGroup.name =
      (bt.map Prod.fst).filter p := by
  induction bt with
  | nil => rfl
  | cons q bt ih =>
      simp only [List.map_cons, List.filter_cons]
      by_cases h : p q.1 = true <;> simp [h, ih]

theorem groupEndpointsByTag_eq (spec : OpenAPISpec) :
    groupEndpointsByTag spec =
      (List.insertionSort
        (fun a b => tagCmp ((spec.tags.getD []).map Tag.name) a b ≤ 0)
        ((buildTagMap (extractEndpoints spec)).map (fun q =>
          TagGroup.mk q.1
            (jsMapGet ((spec.tags.getD []).foldl
              (fun m t => jsMapSet m t.name (t.description.getD "")) []) q.1)
            q.2))).filter (fun g => decide (0 < g.endpoints.length)) := rfl

/-- C7 (amended): `groupEndpointsByTag` partitions the endpoint list by
`endpointTag` — the first declared tag when it is *non-empty*, with
endpoints having no tags or an empty-string first tag placed in the
synthetic `"Other"` group (the claim's original wording, partitioning
by the first declared tag alone, fails for an empty-string tag, see
`groupEndpointsByTag_empty_tag_cex`).  No returned group is empty; each
group holds exactly the endpoints carrying its tag, in extraction
order; group names are a permutation of the first-seen tag list; groups
are sorted by the `spec.tags` declaration order with all undeclared
tags after all declared ones (`tagCmp … ≤ 0` pairwise); and the
undeclared groups (`jsIndexOf … = -1`, i.e. names not in `spec.tags`)
keep their first-seen order. -/
theorem groupEndpointsByTag_spec_amended (spec : OpenAPISpec) :
    (∀ g ∈ groupEndpointsByTag spec, g.endpoints ≠ []) ∧
    (∀ g ∈ groupEndpointsByTag spec,
        g.endpoints = (extractEndpoints spec).filter
          (fun e => endpointTag e == g.name)) ∧
    ((groupEndpointsByTag spec).map TagGroup.name).Perm
      (seenTags (extractEndpoints spec)) ∧
    (groupEndpointsByTag spec).Pairwise
      (fun a b => tagCmp ((spec.tags.getD []).map Tag.name) a b ≤ 0) ∧
    ((groupEndpointsByTag spec).filter (fun g =>
        decide (jsIndexOf g.name ((spec.tags.getD []).map Tag.name)
          = -1))).map TagGroup.name =
      (seenTags (extractEndpoints spec)).filter (fun t =>
        decide (jsIndexOf t ((spec.tags.getD []).map Tag.name) = -1)) := by
  rw [groupEndpointsByTag_eq]
  set tagOrder := (spec.tags.getD []).map Tag.name with htagOrder
  set eps := extractEndpoints spec with heps
  set descr := (spec.tags.getD []).foldl
      (fun m t => jsMapSet m t.name (t.description.getD "")) [] with hdescr
  set groups := (buildTagMap eps).map (fun q =>
      TagGroup.mk q.1 (jsMapGet descr q.1) q.2) with hgroups
  have hkeys : (buildTagMap eps).map Prod.fst = seenTags eps :=
    buildTagMap_keys eps
  have hkeysnodup : ((buildTagMap eps).map Prod.fst).Nodup := by
    rw [hkeys]
    exact seenTags_nodup eps
  have hmem_content : ∀ q ∈ buildTagMap eps,
      q.2 = eps.filter (fun e => endpointTag e == q.1) ∧ q.2 ≠ [] := by
    intro q hq
    have hget : jsMapGet (buildTagMap eps) q.1 = some q.2 := by
      rcases q with ⟨t, l⟩
      exact jsMapGet_of_mem _ hkeysnodup t l hq
    rw [buildTagMap_get] at hget
    have hga := groupAcc_none_some _ _ hget
    exact ⟨hga.1, by rw [hga.1]; exact hga.2⟩
  have hg_content : ∀ g ∈ groups, g.endpoints =
      eps.filter (fun e => endpointTag e == g.name) ∧ g.endpoints ≠ [] := by
    intro g hg
    rcases List.mem_map.mp hg with ⟨q, hq, rfl⟩
    exact hmem_content q hq
  have hg_names : groups.map TagGroup.name = seenTags eps := by
    rw [hgroups, List.map_map]
    exact hkeys
  have hperm : (List.insertionSort
      (fun a b => tagCmp tagOrder a b ≤ 0) groups).Perm groups :=
    List.perm_insertionSort _ _
  have hsorted : (List.insertionSort
      (fun a b => tagCmp tagOrder a b ≤ 0) groups).Pairwise
      (fun a b => tagCmp tagOrder a b ≤ 0) := by
    haveI : IsTotal TagGroup (fun a b => tagCmp tagOrder a b ≤ 0) :=
      ⟨fun a b => tagCmp_total tagOrder a b⟩
    haveI : IsTrans TagGroup (fun a b => tagCmp tagOrder a b ≤ 0) :=
      ⟨fun a b c => tagCmp_trans tagOrder a b c⟩
    exact List.sorted_insertionSort _ _
  have hfilter : (List.insertionSort
      (fun a b => tagCmp tagOrder a b ≤ 0) groups).filter
        (fun g => decide (0 < g.endpoints.length)) =
      List.insertionSort (fun a b => tagCmp tagOrder a b ≤ 0) groups := by
    apply List.filter_eq_self.mpr
    intro g hg
    have hgm : g ∈ groups := hperm.subset hg
    have hne := (hg_content g hgm).2
    simpa using List.length_pos.mpr hne
  rw [hfilter]
  refine ⟨?_, ?_, ?_, hsorted, ?_⟩
  · intro g hg
    exact (hg_content g (hperm.subset hg)).2
  · intro g hg
    exact (hg_content g (hperm.subset hg)).1
  · exact (hperm.map TagGroup.name).trans (hg_names ▸ List.Perm.refl _)
  · have h1 : (List.insertionSort
        (fun a b => tagCmp tagOrder a b ≤ 0) groups).filter
          (fun g => decide (jsIndexOf g.name tagOrder = -1)) =
        groups.filter (fun g => decide (jsIndexOf g.name tagOrder = -1)) :=
      insertionSort_filter_und tagOrder groups
    rw [h1]
    have h2 : (groups.filter
        (fun g => decide (jsIndexOf g.name tagOrder = -1))).map TagGroup.name =
        ((buildTagMap eps).map Prod.fst).filter
          (fun t => decide (jsIndexOf t tagOrder = -1)) :=
      filter_name_map_mk (buildTagMap eps) descr
        (fun t => decide (jsIndexOf t tagOrder = -1))
    rw [h2, hkeys]

/-- Witness for `groupEndpointsByTag_spec_amended` on the `Health`
fixture. -/
theorem groupEndpointsByTag_spec_amended_witness :
    (⟨"Health", some "Health checks",
      [⟨"/ping", Method.get, opHealth⟩]⟩ : TagGroup).endpoints ≠ [] := by
  apply (groupEndpointsByTag_spec_amended specTags).1
  have h : groupEndpointsByTag specTags =
      [⟨"Health", some "Health checks",
        [⟨"/ping", Method.get, opHealth⟩]⟩] := rfl
  rw [h]
  exact List.mem_singleton_self _

/-- Counterexample to C7 as stated: an endpoint whose first *declared*
tag is the empty string is not grouped under that tag — JS `|| 'Other'`
sends it to the synthetic `"Other"` group. -/
theorem groupEndpointsByTag_empty_tag_cex :
    (groupEndpointsByTag specTagE).map TagGroup.name = ["Other"] ∧
    (extractEndpoints specTagE).map (fun e => e.operation.tags) =
      [some [""]] ∧
    ("" : String) ≠ "Other" :=
  ⟨rfl, rfl, by decide⟩
